import Mathlib

/-!
# Verification of `paralytics.column_parsing.CategoricalGrouper`

Shallow embedding of the sparse-category grouping transformer from
`src/paralytics/column_parsing.py`.  A tabular dataset is a list of named,
typed columns; categorical ("category" dtype) columns carry their closed
domain of allowed values.  Cell values are strings, relative frequencies are
exact rationals, and every fallible operation returns `Except String`.
-/

deriving instance DecidableEq for Except

/-- A column dtype: pandas `category` dtype carries its closed list of
allowed categories; every other dtype (object, numeric, bool) is collapsed
to `other`, which is all the grouper distinguishes. -/
inductive Dtype where
  | category (cats : List String)
  | other
deriving DecidableEq

/-- A named, typed column holding one value per row. -/
structure Col where
  name : String
  dtype : Dtype
  values : List String
deriving DecidableEq

/-- A dataset: an ordered sequence of columns. -/
structure DataFrame where
  cols : List Col
deriving DecidableEq

/-- `True` exactly on the `category` dtype; embeds
`X.select_dtypes('category')` membership. -/
def Dtype.isCategory : Dtype → Bool
  | .category _ => true
  | .other => false

/-- The dataset's column names in natural order (`X.columns`). -/
def DataFrame.names (X : DataFrame) : List String :=
  X.cols.map (·.name)

/-- Number of rows (`len(X)`): the length of the first column, `0` for a
column-less frame. -/
def DataFrame.nrows (X : DataFrame) : Nat :=
  (X.cols.head?.map (·.values.length)).getD 0

/-- Column lookup by name (`X[col]`); `none` embeds a `KeyError`. -/
def DataFrame.getCol (X : DataFrame) (n : String) : Option Col :=
  X.cols.find? (fun c => c.name = n)

/-- Replace the column named `n` (`X_new[col] = ...`). -/
def DataFrame.setCol (X : DataFrame) (n : String) (c' : Col) : DataFrame :=
  ⟨X.cols.map (fun c => if c.name = n then c' else c)⟩

/-- The values of column `n`, `[]` when the column is absent. -/
def colValues (X : DataFrame) (n : String) : List String :=
  ((X.getCol n).map (·.values)).getD []

/-- An `include_cols` / `exclude_cols` argument as received by the Python
constructor: `None`, an actual list, or some non-list value (the shape the
`assert isinstance(..., list)` checks guard against). -/
inductive ColsArg where
  | noneArg
  | listArg (l : List String)
  | nonListArg
deriving DecidableEq

/-- Embeds `CategoricalGrouper._cat_cols_selection`: start from the names of
`category`-dtype columns; with `include` a list, rebuild from `X.columns`
keeping names that are categorical or included; with `exclude` a list, drop
excluded names.  Non-list arguments fail like the Python asserts. -/
def cat_cols_selection (X : DataFrame) (inc exc : ColsArg) :
    Except String (List String) := do
  let cat_cols := (X.cols.filter (fun c => c.dtype.isCategory)).map (·.name)
  let cat_cols ←
    match inc with
    | .noneArg => pure cat_cols
    | .listArg l =>
        pure (X.names.filter (fun col => cat_cols.contains col || l.contains col))
    | .nonListArg =>
        throw "Columns to include must be given as an instance of a list!"
  match exc with
  | .noneArg => pure cat_cols
  | .listArg l => pure (cat_cols.filter (fun col => !l.contains col))
  | .nonListArg =>
      throw "Columns to exclude must be given as an instance of a list!"

/-- Distinct values of a list in order of first appearance (the distinct
keys underlying `value_counts`). -/
def firstSeenAux : List String → List String → List String
  | [], _ => []
  | x :: xs, seen =>
      if seen.contains x then firstSeenAux xs seen
      else x :: firstSeenAux xs (x :: seen)

/-- Distinct values in order of first appearance. -/
def firstSeen (xs : List String) : List String :=
  firstSeenAux xs []

/-- Stable descending insertion on the count component. -/
def insertDesc (p : String × Nat) : List (String × Nat) → List (String × Nat)
  | [] => [p]
  | q :: qs => if q.2 ≤ p.2 then p :: q :: qs else q :: insertDesc p qs

/-- Stable descending sort on the count component. -/
def sortDesc : List (String × Nat) → List (String × Nat)
  | [] => []
  | p :: ps => insertDesc p (sortDesc ps)

/-- Embeds `X[col].value_counts(...)` before normalization: distinct values
with their counts, sorted by count descending.  Pandas leaves the order of
tied counts unspecified; this model fixes first-appearance order among ties,
and no claim below depends on tie order. -/
def value_counts (xs : List String) : List (String × Nat) :=
  sortDesc ((firstSeen xs).map (fun v => (v, xs.count v)))

/-- Exact rational division `a / b`, via `mkRat` so that the kernel can
evaluate it (the `Div ℚ` field operation is `@[irreducible]`); proved equal
to `/` in `qdiv_eq`. -/
def qdiv (a : Int) (b : Nat) : ℚ := mkRat a b

/-- Exact rational addition, via `mkRat` so that the kernel can evaluate it;
proved equal to `+` in `qadd_eq`. -/
def qadd (a b : ℚ) : ℚ := mkRat (a.num * b.den + b.num * a.den) (a.den * b.den)

/-- Exact rational subtraction, via `mkRat` so that the kernel can evaluate
it; proved equal to `-` in `qsub_eq`. -/
def qsub (a b : ℚ) : ℚ := mkRat (a.num * b.den - b.num * a.den) (a.den * b.den)

/-- Embeds the cumulative-share `while` loop of `fit`: starting from
`tracker`, consume frequencies while `tracker < target`, returning the
number `i` of consumed entries.  (When the list runs out with the guard
still true the Python loop would raise `IndexError`; that is unreachable
whenever the frequencies sum to at least `target`, which holds for every
nonempty column and `percentile_thresh ≥ 0`.) -/
def cumWalk (target : ℚ) : ℚ → List ℚ → Nat
  | _, [] => 0
  | tracker, f :: fs =>
      if tracker < target then cumWalk target (qadd tracker f) fs + 1 else 0

/-- Embeds the candidate sparse set of `fit` for one column:
`sorted_series.index[i:].tolist()` after the cumulative walk against
`1 - percentile_thresh` over normalized counts. -/
def sparse_cats (xs : List String) (thresh : ℚ) : List String :=
  let sorted := value_counts xs
  let i := cumWalk (qsub 1 thresh) 0 (sorted.map (fun p => qdiv (p.2 : Int) xs.length))
  (sorted.drop i).map (·.1)

/-- The sparse set recorded by `fit` for one column: the candidate set when
it has more than one element, else `[]`. -/
def imp_cats_col (xs : List String) (thresh : ℚ) : List String :=
  let s := sparse_cats xs thresh
  if s.length > 1 then s else []

/-- The constructor configuration of `CategoricalGrouper`. -/
structure GrouperConfig where
  method : String
  percentile_thresh : ℚ
  new_cat : String
  include_cols : ColsArg
  exclude_cols : ColsArg

/-- The constructor defaults:
`method='freq', percentile_thresh=.05, new_cat='Other'`. -/
def defaultConfig : GrouperConfig :=
  ⟨"freq", mkRat 5 100, "Other", .noneArg, .noneArg⟩

/-- The fitted attributes `cat_cols_` and `imp_cats_` (the latter a dict,
modelled as an association list). -/
structure FitState where
  cat_cols_ : List String
  imp_cats_ : List (String × List String)
deriving DecidableEq

/-- Embeds `CategoricalGrouper.fit`: reject an empty frame, select the
categorical columns, and when `method == 'freq'` record each selected
column's sparse set; for any other method `imp_cats_` stays empty. -/
def fit (cfg : GrouperConfig) (X : DataFrame) : Except String FitState := do
  if X.nrows = 0 then
    throw "Input data can not be empty!"
  else
    let cat_cols ← cat_cols_selection X cfg.include_cols cfg.exclude_cols
    let imp :=
      if cfg.method = "freq" then
        cat_cols.map (fun col => (col, imp_cats_col (colValues X col) cfg.percentile_thresh))
      else []
    pure ⟨cat_cols, imp⟩

/-- The per-cell rewrite of `transform`: a value in the column's sparse set
becomes `new_cat`, any other value is untouched. -/
def applySentinel (imp : List String) (nc : String) (v : String) : String :=
  if imp.contains v then nc else v

/-- The message of the `ValueError` that `transform` raises when `new_cat`
is already one of the column's categories. -/
def collisionMsg : String :=
  "You need to specify different \"new_cat\" value, because the current one is already included in the category names."

/-- Embeds the per-column body of `transform`.  For a `category` column:
`add_categories(new_cat)` fails when `new_cat` is already a category;
then the sparse values present among the categories are removed, and
writing `new_cat` into masked rows fails when `new_cat` is no longer a
category (it was itself sparse) while the mask is nonempty.  For any other
dtype only the masked cells are rewritten. -/
def transformCol (imp : List String) (nc : String) (c : Col) : Except String Col :=
  match c.dtype with
  | .category cats =>
      if cats.contains nc then
        throw collisionMsg
      else
        let cats' := (cats ++ [nc]).filter (fun v => !imp.contains v)
        if c.values.any (fun v => imp.contains v) && !cats'.contains nc then
          throw "Cannot setitem on a Categorical with a new category, set the categories first"
        else
          pure ⟨c.name, .category cats', c.values.map (applySentinel imp nc)⟩
  | .other => pure ⟨c.name, .other, c.values.map (applySentinel imp nc)⟩

/-- One iteration of the `for col in self.cat_cols_` loop of `transform`:
`X_new[col]` (KeyError when absent), `self.imp_cats_[col]` (KeyError when
the dict has no entry), then the per-column rewrite. -/
def transformStep (st : FitState) (nc : String) (X : DataFrame) (col : String) :
    Except String DataFrame :=
  match X.getCol col with
  | none => throw ("KeyError: " ++ col)
  | some c =>
      match List.lookup col st.imp_cats_ with
      | none => throw ("KeyError: " ++ col)
      | some imp => do
          let c' ← transformCol imp nc c
          pure (X.setCol col c')

/-- `transform` after a successful `fit`: fold the per-column rewrite over
`cat_cols_`, starting from a copy of the input. -/
def transformFitted (st : FitState) (nc : String) (X : DataFrame) :
    Except String DataFrame :=
  st.cat_cols_.foldlM (transformStep st nc) X

/-- Embeds `CategoricalGrouper.transform`: an unfitted instance (no
`cat_cols_` / `imp_cats_` attributes) fails with the fit-first message,
otherwise the fitted rewrite runs. -/
def transform (fitted : Option FitState) (nc : String) (X : DataFrame) :
    Except String DataFrame :=
  match fitted with
  | none =>
      throw ("Could not find the attribute.\nFitting is necessary before you do the transformation.")
  | some st => transformFitted st nc X

/-- The column a successful `transformCol` returns: sparse cells rewritten
to `new_cat`, and for a closed-domain column the domain extended by
`new_cat` and stripped of the sparse values. -/
def transformColPure (imp : List String) (nc : String) (c : Col) : Col :=
  match c.dtype with
  | .category cats =>
      ⟨c.name, .category ((cats ++ [nc]).filter (fun v => !imp.contains v)),
        c.values.map (applySentinel imp nc)⟩
  | .other => ⟨c.name, .other, c.values.map (applySentinel imp nc)⟩

/-- The per-column rewrite a whole successful `transform` applies, keyed by
the column's recorded sparse set. -/
def frameMapFun (st : FitState) (nc : String) (L : List String) (c : Col) : Col :=
  if L.contains c.name then
    transformColPure ((List.lookup c.name st.imp_cats_).getD []) nc c
  else c

/-- Modelled from the claim's wording for the column-selection contract:
the dataset's columns, in the dataset's natural order, restricted to those
that are declared categorical or whose name appears in `include_cols` (when
provided), minus those whose name appears in `exclude_cols` (when
provided); a non-list `include_cols` or `exclude_cols` is an error. -/
def selectionSpec (X : DataFrame) (inc exc : ColsArg) : Except String (List String) :=
  match inc, exc with
  | .nonListArg, _ => .error "Columns to include must be given as an instance of a list!"
  | _, .nonListArg => .error "Columns to exclude must be given as an instance of a list!"
  | i, e =>
      let incl := match i with | .listArg l => l | _ => []
      let excl := match e with | .listArg l => l | _ => []
      .ok ((X.names.filter (fun n =>
          X.cols.any (fun c => c.name = n && c.dtype.isCategory) || incl.contains n)).filter
          (fun n => !excl.contains n))

/-! ## Concrete data used by the claims -/

/-- The 100-row `color` column of the end-to-end example:
70 red, 20 blue, 5 green, 3 yellow, 2 purple. -/
def colorValues : List String :=
  List.replicate 70 "red" ++ List.replicate 20 "blue" ++ List.replicate 5 "green" ++
  List.replicate 3 "yellow" ++ List.replicate 2 "purple"

/-- The end-to-end example frame: one categorical column `color`. -/
def XC1 : DataFrame :=
  ⟨[⟨"color", .category ["red", "blue", "green", "yellow", "purple"], colorValues⟩]⟩

/-- The fitted state the end-to-end example produces. -/
def stC1 : FitState := ⟨["color"], [("color", ["yellow", "purple"])]⟩

/-- The transformed end-to-end example frame. -/
def YC1 : DataFrame :=
  ⟨[⟨"color", .category ["red", "blue", "green", "Other"],
    List.replicate 70 "red" ++ List.replicate 20 "blue" ++ List.replicate 5 "green" ++
    List.replicate 5 "Other"⟩]⟩

/-- A configuration with `percentile_thresh = 0.5` (small frames then have
nontrivial sparse sets). -/
def cfgHalf : GrouperConfig := ⟨"freq", mkRat 1 2, "Other", .noneArg, .noneArg⟩

/-- A 4-row frame with one closed-domain column: 2 x, 1 a, 1 b. -/
def XC3 : DataFrame := ⟨[⟨"c", .category ["x", "a", "b"], ["x", "x", "a", "b"]⟩]⟩

/-- The state `fit cfgHalf XC3` produces: sparse set `{a, b}`. -/
def stC3 : FitState := ⟨["c"], [("c", ["a", "b"])]⟩

/-- `XC3` after one transform: `a`/`b` rewritten to `Other`, domain shrunk
to `{x, Other}`. -/
def YC3 : DataFrame := ⟨[⟨"c", .category ["x", "Other"], ["x", "x", "Other", "Other"]⟩]⟩

/-- `XC3` with an open (non-category) dtype for the same values. -/
def XW3 : DataFrame := ⟨[⟨"c", .other, ["x", "x", "a", "b"]⟩]⟩

/-- Configuration selecting the open column `c` through `include_cols`. -/
def cfgIncl : GrouperConfig := ⟨"freq", mkRat 1 2, "Other", .listArg ["c"], .noneArg⟩

/-- `XW3` after one transform. -/
def YW3 : DataFrame := ⟨[⟨"c", .other, ["x", "x", "Other", "Other"]⟩]⟩

/-- A 3-row closed-domain frame whose sparse candidate set is the singleton
`{a}`, so the recorded sparse set is empty. -/
def XC4 : DataFrame := ⟨[⟨"c", .category ["x", "a"], ["x", "x", "a"]⟩]⟩

/-- The state `fit cfgHalf XC4` produces: empty sparse set. -/
def stC4 : FitState := ⟨["c"], [("c", [])]⟩

/-- `XC4` after one transform: values untouched but the closed domain still
gained the sentinel. -/
def YC4 : DataFrame := ⟨[⟨"c", .category ["x", "a", "Other"], ["x", "x", "a"]⟩]⟩

/-- A fit frame in which the sentinel name `Other` is itself a sparse
value: 38 x, 1 a, 1 Other. -/
def XC6f : DataFrame :=
  ⟨[⟨"c", .category ["x", "a", "Other"],
    List.replicate 38 "x" ++ ["a", "Other"]⟩]⟩

/-- The state `fit defaultConfig XC6f` produces: sparse set `{a, Other}`. -/
def stC6 : FitState := ⟨["c"], [("c", ["a", "Other"])]⟩

/-- A transform input whose closed domain holds `x` and `a` but not the
sentinel, and whose rows hold no sparse value. -/
def XC6b : DataFrame := ⟨[⟨"c", .category ["x", "a"], ["x", "x"]⟩]⟩

/-- `XC6b` after transform under `stC6`: the sentinel is absent from the
shrunk domain. -/
def YC6 : DataFrame := ⟨[⟨"c", .category ["x"], ["x", "x"]⟩]⟩

/-- A two-column fit frame: `a` (sparse set `{q, r}`) and `b` (whose domain
holds the sentinel name). -/
def XC7f : DataFrame :=
  ⟨[⟨"a", .category ["p", "q", "r"], ["p", "p", "q", "r"]⟩,
    ⟨"b", .category ["x", "Other"], ["x", "x", "x", "Other"]⟩]⟩

/-- The state `fit cfgHalf XC7f` produces. -/
def stC7 : FitState := ⟨["a", "b"], [("a", ["q", "r"]), ("b", [])]⟩

/-- A transform input holding the colliding column `b` but missing the
selected column `a`. -/
def XC7b : DataFrame := ⟨[⟨"b", .category ["x", "Other"], ["x"]⟩]⟩

/-- A single-column fit frame whose domain already holds the sentinel. -/
def XW7 : DataFrame := ⟨[⟨"b", .category ["x", "Other"], ["x", "x", "x", "Other"]⟩]⟩

/-- The state `fit cfgHalf XW7` produces. -/
def stW7 : FitState := ⟨["b"], [("b", [])]⟩

/-- A two-column frame: a categorical `y` and an open-dtype `n`. -/
def XW8 : DataFrame :=
  ⟨[⟨"y", .category ["u"], ["u"]⟩, ⟨"n", .other, ["1"]⟩]⟩

/-- A configuration with an unrecognized `method`. -/
def cfgFoo : GrouperConfig := ⟨"foo", mkRat 1 2, "Other", .noneArg, .noneArg⟩

/-- The state `fit cfgFoo XC3` produces: the selected column list but an
empty `imp_cats_` dict. -/
def stFoo : FitState := ⟨["c"], []⟩

/-- The state `fit` produces on `XC1` with `percentile_thresh = 0.3`. -/
def stW9 : FitState := ⟨["color"], [("color", ["blue", "green", "yellow", "purple"])]⟩

/-! ## Arithmetic bridge lemmas -/

/-- `qdiv` is division on `ℚ`. -/
theorem qdiv_eq (a : Int) (b : Nat) : qdiv a b = (a : ℚ) / (b : ℚ) := by
  simp [qdiv, Rat.mkRat_eq_div]

/-- `qadd` is addition on `ℚ`. -/
theorem qadd_eq (a b : ℚ) : qadd a b = a + b := by
  have ha : ((a.den : ℚ)) ≠ 0 := by
    exact_mod_cast a.den_nz
  have hb : ((b.den : ℚ)) ≠ 0 := by
    exact_mod_cast b.den_nz
  rw [qadd, Rat.mkRat_eq_div]
  push_cast
  conv_rhs => rw [← Rat.num_div_den a, ← Rat.num_div_den b]
  rw [div_add_div _ _ ha hb]
  congr 1
  ring

/-- `qsub` is subtraction on `ℚ`. -/
theorem qsub_eq (a b : ℚ) : qsub a b = a - b := by
  have ha : ((a.den : ℚ)) ≠ 0 := by
    exact_mod_cast a.den_nz
  have hb : ((b.den : ℚ)) ≠ 0 := by
    exact_mod_cast b.den_nz
  rw [qsub, Rat.mkRat_eq_div]
  push_cast
  conv_rhs => rw [← Rat.num_div_den a, ← Rat.num_div_den b]
  rw [div_sub_div _ _ ha hb]
  congr 1
  ring

/-! ## Characterization of the per-column rewrite -/

theorem transformColPure_name (imp : List String) (nc : String) (c : Col) :
    (transformColPure imp nc c).name = c.name := by
  cases c with
  | mk n d v => cases d <;> simp [transformColPure]

theorem transformCol_ok_eq {imp : List String} {nc : String} {c c' : Col}
    (h : transformCol imp nc c = .ok c') : c' = transformColPure imp nc c := by
  cases c with
  | mk n d v =>
    cases d with
    | category cats =>
      simp only [transformCol] at h
      split at h
      · simp at h
      · split at h
        · simp at h
        · exact (Except.ok.inj h).symm
    | other =>
      simp only [transformCol] at h
      exact (Except.ok.inj h).symm

theorem transformCol_other_ok (imp : List String) (nc : String) {c : Col}
    (h : c.dtype = .other) :
    transformCol imp nc c = .ok (transformColPure imp nc c) := by
  cases c with
  | mk n d v =>
    cases d with
    | category cats => simp at h
    | other => rfl

theorem applySentinel_idem (imp : List String) (nc v : String) :
    applySentinel imp nc (applySentinel imp nc v) = applySentinel imp nc v := by
  unfold applySentinel
  by_cases h : imp.contains v
  · simp only [h, if_true]
    by_cases h2 : imp.contains nc <;> simp [h2]
  · have h' : v ∉ imp := by simpa using h
    simp [h, h']

/-! ## Frame bookkeeping lemmas -/

theorem setCol_names (X : DataFrame) (n : String) {c' : Col} (h : c'.name = n) :
    (X.setCol n c').names = X.names := by
  simp only [DataFrame.setCol, DataFrame.names, List.map_map]
  apply List.map_congr_left
  intro c _
  by_cases hc : c.name = n <;> simp [hc, h]

theorem getCol_setCol_ne (X : DataFrame) {n m : String} (c' : Col)
    (hm : m ≠ n) (hc : c'.name = n) :
    (X.setCol n c').getCol m = X.getCol m := by
  cases X with
  | mk cols =>
    induction cols with
    | nil => simp [DataFrame.setCol, DataFrame.getCol]
    | cons c rest ih =>
      simp only [DataFrame.setCol, DataFrame.getCol, List.map_cons] at ih ⊢
      by_cases h1 : c.name = n
      · have hmc : ¬ (c'.name = m) := fun e => hm (e ▸ hc.symm ▸ rfl)
        have hcm : ¬ (c.name = m) := fun e => hm (h1 ▸ e ▸ rfl)
        simp only [h1, if_true]
        rw [List.find?_cons_of_neg _ (by simpa using hmc),
            List.find?_cons_of_neg _ (by simpa using hcm)]
        exact ih
      · simp only [h1, if_false]
        by_cases h2 : c.name = m
        · rw [List.find?_cons_of_pos _ (by simpa using h2),
              List.find?_cons_of_pos _ (by simpa using h2)]
        · rw [List.find?_cons_of_neg _ (by simpa using h2),
              List.find?_cons_of_neg _ (by simpa using h2)]
          exact ih

theorem getCol_setCol_self (X : DataFrame) {n : String} (c' : Col)
    (hsome : (X.getCol n).isSome) (hc : c'.name = n) :
    (X.setCol n c').getCol n = some c' := by
  cases X with
  | mk cols =>
    induction cols with
    | nil => simp [DataFrame.getCol] at hsome
    | cons c rest ih =>
      simp only [DataFrame.setCol, DataFrame.getCol, List.map_cons] at ih hsome ⊢
      by_cases h1 : c.name = n
      · simp only [h1, if_true]
        rw [List.find?_cons_of_pos _ (by simpa using hc)]
      · simp only [h1, if_false]
        rw [List.find?_cons_of_neg _ (by simpa using h1)]
        rw [List.find?_cons_of_neg _ (by simpa using h1)] at hsome
        exact ih hsome

theorem getCol_isSome_iff (X : DataFrame) (n : String) :
    (X.getCol n).isSome ↔ n ∈ X.names := by
  cases X with
  | mk cols =>
    induction cols with
    | nil => simp [DataFrame.getCol, DataFrame.names]
    | cons c rest ih =>
      simp only [DataFrame.getCol, DataFrame.names, List.map_cons, List.mem_cons] at ih ⊢
      by_cases h1 : c.name = n
      · rw [List.find?_cons_of_pos _ (by simpa using h1)]
        simp [h1]
      · rw [List.find?_cons_of_neg _ (by simpa using h1)]
        simp only [ih]
        constructor
        · exact Or.inr
        · rintro (h | h)
          · exact absurd h.symm h1
          · exact h

theorem lookup_map_self (f : String → List String) (l : List String) {a : String}
    (h : a ∈ l) :
    List.lookup a (l.map (fun x => (x, f x))) = some (f a) := by
  induction l with
  | nil => cases h
  | cons x xs ih =>
    simp only [List.map_cons, List.lookup]
    by_cases hx : a = x
    · simp [hx]
    · have hmem : a ∈ xs := by
        cases List.mem_cons.mp h with
        | inl h' => exact absurd h' hx
        | inr h' => exact h'
      have hbeq : (a == x) = false := beq_eq_false_iff_ne.mpr hx
      simp [hbeq, ih hmem]

theorem getCol_name {X : DataFrame} {n : String} {c : Col}
    (h : X.getCol n = some c) : c.name = n := by
  have := List.find?_some h
  simpa using this

theorem getCol_mem {X : DataFrame} {n : String} {c : Col}
    (h : X.getCol n = some c) : c ∈ X.cols :=
  List.mem_of_find?_eq_some h

theorem getCol_of_mem_nodup {X : DataFrame} {c : Col}
    (hn : X.names.Nodup) (hm : c ∈ X.cols) : X.getCol c.name = some c := by
  cases X with
  | mk cols =>
    induction cols with
    | nil => cases hm
    | cons d rest ih =>
      simp only [DataFrame.names, List.map_cons, List.nodup_cons] at hn
      cases List.mem_cons.mp hm with
      | inl h =>
        subst h
        simp only [DataFrame.getCol]
        rw [List.find?_cons_of_pos _ (by simp)]
      | inr h =>
        simp only [DataFrame.getCol]
        have hne : ¬ (d.name = c.name) := by
          intro he
          exact hn.1 (he ▸ List.mem_map_of_mem (·.name) h)
        rw [List.find?_cons_of_neg _ (by simpa using hne)]
        exact ih (by simpa [DataFrame.names] using hn.2) h

theorem getCol_map_name_preserving (X : DataFrame) (f : Col → Col)
    (hf : ∀ c, (f c).name = c.name) (n : String) :
    DataFrame.getCol ⟨X.cols.map f⟩ n = (X.getCol n).map f := by
  unfold DataFrame.getCol
  rw [List.find?_map]
  have hp : ((fun c : Col => decide (c.name = n)) ∘ f) =
      (fun c : Col => decide (c.name = n)) := by
    funext c
    simp [Function.comp, hf]
  rw [hp]

/-! ## Characterization of the per-frame rewrite -/

theorem transformStep_ok {st : FitState} {nc : String} {X X' : DataFrame} {col : String}
    (h : transformStep st nc X col = .ok X') :
    ∃ c imp, X.getCol col = some c ∧ List.lookup col st.imp_cats_ = some imp ∧
      transformCol imp nc c = .ok (transformColPure imp nc c) ∧
      X' = X.setCol col (transformColPure imp nc c) := by
  unfold transformStep at h
  split at h
  · simp at h
  next c hg =>
    split at h
    · simp at h
    next imp hl =>
      cases ht : transformCol imp nc c with
      | error e =>
        rw [ht] at h
        exact Except.noConfusion
          (show (Except.error e : Except String DataFrame) = Except.ok X' from h)
      | ok c' =>
        rw [ht] at h
        have hc' : c' = transformColPure imp nc c := transformCol_ok_eq ht
        refine ⟨c, imp, hg, hl, hc' ▸ ht, ?_⟩
        have hX' : X.setCol col c' = X' :=
          Except.ok.inj (show Except.ok (X.setCol col c') = Except.ok X' from h)
        rw [← hX', hc']

theorem transformStep_eq_ok {st : FitState} {nc : String} {X : DataFrame}
    {col : String} {c c' : Col} {imp : List String}
    (hg : X.getCol col = some c) (hl : List.lookup col st.imp_cats_ = some imp)
    (ht : transformCol imp nc c = .ok c') :
    transformStep st nc X col = .ok (X.setCol col c') := by
  unfold transformStep
  rw [hg, hl]
  show (do
    let cc ← transformCol imp nc c
    pure (X.setCol col cc)) = Except.ok (X.setCol col c')
  rw [ht]
  rfl

theorem transformStep_ok_names {st : FitState} {nc : String} {X X' : DataFrame}
    {col : String} (h : transformStep st nc X col = .ok X') : X'.names = X.names := by
  obtain ⟨c, imp, hg, -, -, hX'⟩ := transformStep_ok h
  rw [hX']
  exact setCol_names X col ((transformColPure_name imp nc c).trans (getCol_name hg))

theorem transformColPure_dtype_other {imp : List String} {nc : String} {c : Col}
    (h : c.dtype = .other) : (transformColPure imp nc c).dtype = .other := by
  cases c with
  | mk n d v =>
    cases d with
    | category cats => simp at h
    | other => rfl

theorem transformStep_preserves_other {st : FitState} {nc : String} {X X' : DataFrame}
    {col : String} (h : transformStep st nc X col = .ok X')
    (hd : ∀ c ∈ X.cols, c.dtype = .other) : ∀ c ∈ X'.cols, c.dtype = .other := by
  obtain ⟨c0, imp, hg, -, -, hX'⟩ := transformStep_ok h
  subst hX'
  intro c hc
  simp only [DataFrame.setCol, List.mem_map] at hc
  obtain ⟨d, hd', he⟩ := hc
  by_cases hn : d.name = col
  · rw [if_pos hn] at he
    exact he ▸ transformColPure_dtype_other (hd c0 (getCol_mem hg))
  · rw [if_neg hn] at he
    exact he ▸ hd d hd'

theorem frameMapFun_name (st : FitState) (nc : String) (L : List String) (c : Col) :
    (frameMapFun st nc L c).name = c.name := by
  unfold frameMapFun
  split
  · exact transformColPure_name ..
  · rfl

/-- Characterization of a successful fold over distinct selected columns of
a duplicate-free frame: every selected column present is rewritten by
`transformColPure`, every other column is untouched. -/
theorem foldlM_transformStep_ok_cols {st : FitState} {nc : String} :
    ∀ (L : List String) (X Y : DataFrame), X.names.Nodup → L.Nodup →
    List.foldlM (transformStep st nc) X L = .ok Y →
    Y.cols = X.cols.map (frameMapFun st nc L) := by
  intro L
  induction L with
  | nil =>
    intro X Y _ _ h
    have hXY : X = Y := Except.ok.inj (show Except.ok X = Except.ok Y from h)
    subst hXY
    have : ∀ c ∈ X.cols, frameMapFun st nc [] c = c := by
      intro c _
      simp [frameMapFun]
    exact ((List.map_congr_left this).trans (List.map_id _)).symm
  | cons col L' ih =>
    intro X Y hn hL h
    rw [List.foldlM_cons] at h
    cases hstep : transformStep st nc X col with
    | error e =>
      rw [hstep] at h
      exact Except.noConfusion
        (show (Except.error e : Except String DataFrame) = Except.ok Y from h)
    | ok X1 =>
      rw [hstep] at h
      have h1 : List.foldlM (transformStep st nc) X1 L' = .ok Y := h
      obtain ⟨c0, imp, hg, hl, -, hX1⟩ := transformStep_ok hstep
      have hc0name : c0.name = col := getCol_name hg
      have hpure_name : (transformColPure imp nc c0).name = col :=
        (transformColPure_name imp nc c0).trans hc0name
      have hn1 : X1.names.Nodup := by
        rw [hX1, setCol_names X col hpure_name]
        exact hn
      have hY : Y.cols = X1.cols.map (frameMapFun st nc L') :=
        ih X1 Y hn1 (List.nodup_cons.mp hL).2 h1
      rw [hY, hX1]
      simp only [DataFrame.setCol, List.map_map]
      apply List.map_congr_left
      intro c hc
      simp only [Function.comp]
      by_cases hcname : c.name = col
      · have hc0 : c = c0 := by
          have h1' := getCol_of_mem_nodup hn hc
          rw [hcname] at h1'
          exact Option.some.inj (h1'.symm.trans hg)
        rw [if_pos hcname]
        have hnotin : ¬ L'.contains (transformColPure imp nc c0).name := by
          rw [hpure_name]
          simpa using (List.nodup_cons.mp hL).1
        unfold frameMapFun
        rw [if_neg hnotin, if_pos (by simp [hcname])]
        rw [hc0, hc0name, hl]
        rfl
      · rw [if_neg hcname]
        unfold frameMapFun
        by_cases hmem : L'.contains c.name
        · rw [if_pos hmem, if_pos (by simp only [List.contains_cons, hmem, Bool.or_true])]
        · rw [if_neg hmem, if_neg (by
            simp only [List.contains_cons, Bool.or_eq_true, not_or]
            exact ⟨by simpa using hcname, by simpa using hmem⟩)]

/-- A successful fold visited every selected column: each exists in the
frame and has a recorded sparse set. -/
theorem foldlM_transformStep_ok_conditions {st : FitState} {nc : String} :
    ∀ (L : List String) (X Y : DataFrame),
    List.foldlM (transformStep st nc) X L = .ok Y →
    ∀ col ∈ L, (X.getCol col).isSome ∧ (List.lookup col st.imp_cats_).isSome := by
  intro L
  induction L with
  | nil => intro X Y _ col hcol; cases hcol
  | cons col0 L' ih =>
    intro X Y h col hcol
    rw [List.foldlM_cons] at h
    cases hstep : transformStep st nc X col0 with
    | error e =>
      rw [hstep] at h
      exact Except.noConfusion
        (show (Except.error e : Except String DataFrame) = Except.ok Y from h)
    | ok X1 =>
      rw [hstep] at h
      obtain ⟨c0, imp, hg, hl, -, -⟩ := transformStep_ok hstep
      cases List.mem_cons.mp hcol with
      | inl he => subst he; exact ⟨by rw [hg]; rfl, by rw [hl]; rfl⟩
      | inr he =>
        have hcond := ih X1 Y h col he
        refine ⟨?_, hcond.2⟩
        have h1 := hcond.1
        rw [getCol_isSome_iff] at h1 ⊢
        rwa [transformStep_ok_names hstep] at h1

/-- On a frame whose columns all have non-closed dtype, the fold succeeds as
soon as every selected column exists and has a recorded sparse set. -/
theorem foldlM_transformStep_other_ok {st : FitState} {nc : String} :
    ∀ (L : List String) (X : DataFrame),
    (∀ c ∈ X.cols, c.dtype = .other) →
    (∀ col ∈ L, (X.getCol col).isSome ∧ (List.lookup col st.imp_cats_).isSome) →
    ∃ Y, List.foldlM (transformStep st nc) X L = .ok Y := by
  intro L
  induction L with
  | nil => intro X _ _; exact ⟨X, rfl⟩
  | cons col L' ih =>
    intro X hd hcond
    obtain ⟨hg, hl⟩ := hcond col (List.mem_cons_self col L')
    obtain ⟨c, hc⟩ := Option.isSome_iff_exists.mp hg
    obtain ⟨imp, himp⟩ := Option.isSome_iff_exists.mp hl
    have ht := transformCol_other_ok imp nc (hd c (getCol_mem hc))
    have hstep := transformStep_eq_ok hc himp ht
    have hX1names : (X.setCol col (transformColPure imp nc c)).names = X.names :=
      setCol_names X col ((transformColPure_name imp nc c).trans (getCol_name hc))
    have hd1 : ∀ d ∈ (X.setCol col (transformColPure imp nc c)).cols, d.dtype = .other :=
      transformStep_preserves_other hstep hd
    have hcond1 : ∀ c' ∈ L',
        ((X.setCol col (transformColPure imp nc c)).getCol c').isSome ∧
        (List.lookup c' st.imp_cats_).isSome := by
      intro c' hc'
      obtain ⟨h1, h2⟩ := hcond c' (List.mem_cons_of_mem col hc')
      refine ⟨?_, h2⟩
      rw [getCol_isSome_iff, hX1names]
      rw [getCol_isSome_iff] at h1
      exact h1
    obtain ⟨Y, hY⟩ := ih (X.setCol col (transformColPure imp nc c)) hd1 hcond1
    refine ⟨Y, ?_⟩
    rw [List.foldlM_cons, hstep]
    exact hY

/-! ## Monotonicity of the cumulative walk -/

theorem cumWalk_mono {t1 t2 : ℚ} (h : t2 ≤ t1) :
    ∀ (tracker : ℚ) (fs : List ℚ), cumWalk t2 tracker fs ≤ cumWalk t1 tracker fs := by
  intro tracker fs
  induction fs generalizing tracker with
  | nil => simp [cumWalk]
  | cons f fs ih =>
    simp only [cumWalk]
    by_cases h2 : tracker < t2
    · have h1 : tracker < t1 := lt_of_lt_of_le h2 h
      rw [if_pos h2, if_pos h1]
      exact Nat.succ_le_succ (ih _)
    · rw [if_neg h2]
      exact Nat.zero_le _

theorem sparse_cats_length_mono (xs : List String) {t1 t2 : ℚ} (h : t1 ≤ t2) :
    (sparse_cats xs t1).length ≤ (sparse_cats xs t2).length := by
  unfold sparse_cats
  simp only [List.length_map, List.length_drop]
  have hsub : qsub 1 t2 ≤ qsub 1 t1 := by
    rw [qsub_eq, qsub_eq]
    linarith
  have := cumWalk_mono hsub 0
    ((value_counts xs).map (fun p => qdiv (p.2 : Int) xs.length))
  omega

theorem imp_cats_col_length_mono (xs : List String) {t1 t2 : ℚ} (h : t1 ≤ t2) :
    (imp_cats_col xs t1).length ≤ (imp_cats_col xs t2).length := by
  have hs := sparse_cats_length_mono xs h
  unfold imp_cats_col
  by_cases h1 : (sparse_cats xs t1).length > 1
  · rw [if_pos h1, if_pos (by omega)]
    exact hs
  · rw [if_neg h1]
    simp

/-! ## Unfolding a successful fit -/

theorem fit_ok {cfg : GrouperConfig} {X : DataFrame} {st : FitState}
    (h : fit cfg X = .ok st) :
    cat_cols_selection X cfg.include_cols cfg.exclude_cols = .ok st.cat_cols_ ∧
    st.imp_cats_ =
      (if cfg.method = "freq" then
        st.cat_cols_.map
          (fun col => (col, imp_cats_col (colValues X col) cfg.percentile_thresh))
      else []) := by
  unfold fit at h
  split at h
  · simp at h
  · cases hsel : cat_cols_selection X cfg.include_cols cfg.exclude_cols with
    | error e =>
      rw [hsel] at h
      exact Except.noConfusion
        (show (Except.error e : Except String FitState) = Except.ok st from h)
    | ok sel =>
      rw [hsel] at h
      have hst : (⟨sel,
          if cfg.method = "freq" then
            sel.map (fun col => (col, imp_cats_col (colValues X col) cfg.percentile_thresh))
          else []⟩ : FitState) = st :=
        Except.ok.inj (show Except.ok _ = Except.ok st from h)
      constructor
      · rw [← hst]
      · rw [← hst]

/-! ## Idempotence of the pure rewrite on open-dtype columns -/

theorem transformColPure_other_idem {imp : List String} {nc : String} {c : Col}
    (h : c.dtype = .other) :
    transformColPure imp nc (transformColPure imp nc c) = transformColPure imp nc c := by
  cases c with
  | mk n d v =>
    cases d with
    | category cats => simp at h
    | other =>
      simp only [transformColPure, List.map_map]
      congr 1
      apply List.map_congr_left
      intro a _
      exact applySentinel_idem ..

theorem frameMapFun_idem_other {st : FitState} {nc : String} {L : List String} {c : Col}
    (h : c.dtype = .other) :
    frameMapFun st nc L (frameMapFun st nc L c) = frameMapFun st nc L c := by
  by_cases hm : L.contains c.name
  · unfold frameMapFun
    simp only [transformColPure_name, hm, if_true]
    exact transformColPure_other_idem h
  · have hm' : c.name ∉ L := by simpa using hm
    unfold frameMapFun
    simp [hm']

/-! ## Claims -/

/-- C1: on the 100-row `color` dataset (70 red, 20 blue, 5 green,
3 yellow, 2 purple), fitting with `method='freq'` and
`percentile_thresh=0.05` ranks the values red, blue, green, yellow, purple
by descending frequency, classifies exactly `{yellow, purple}` as the
sparse set (so red, blue, green are kept), and transforming with
`new_cat='Other'` rewrites exactly the yellow and purple rows to `Other`
while leaving every red, blue, green row unchanged. -/
theorem claim_C1_end_to_end :
    value_counts colorValues =
      [("red", 70), ("blue", 20), ("green", 5), ("yellow", 3), ("purple", 2)] ∧
    fit defaultConfig XC1 = .ok stC1 ∧
    stC1.imp_cats_ = [("color", ["yellow", "purple"])] ∧
    transform (some stC1) "Other" XC1 = .ok YC1 ∧
    YC1.getCol "color" =
      some ⟨"color", .category ["red", "blue", "green", "Other"],
        colorValues.map (fun v => if v = "yellow" ∨ v = "purple" then "Other" else v)⟩ := by
  decide

/-- C5: calling `transform` on an instance on which `fit` never succeeded
(no fitted attributes) always fails, with the message stating that fitting
is necessary before the transformation. -/
theorem claim_C5_unfitted_transform (nc : String) (X : DataFrame) :
    transform none nc X =
      .error "Could not find the attribute.\nFitting is necessary before you do the transformation." :=
  rfl

/-- C2: for every dataset and configuration with `method='freq'`, the
sparse set `fit` records for a selected column is empty when the
cumulative-frequency walk leaves at most one candidate, and is exactly
the candidate set when it leaves two or more. -/
theorem claim_C2_minimum_size_rule (cfg : GrouperConfig) (X : DataFrame)
    (st : FitState) (col : String)
    (hm : cfg.method = "freq") (h : fit cfg X = .ok st)
    (hcol : col ∈ st.cat_cols_) :
    List.lookup col st.imp_cats_ =
      some (if (sparse_cats (colValues X col) cfg.percentile_thresh).length ≤ 1
        then []
        else sparse_cats (colValues X col) cfg.percentile_thresh) := by
  obtain ⟨-, himp⟩ := fit_ok h
  rw [himp, if_pos hm]
  rw [lookup_map_self _ _ hcol]
  congr 1
  unfold imp_cats_col
  by_cases h1 : (sparse_cats (colValues X col) cfg.percentile_thresh).length > 1
  · rw [if_pos h1, if_neg (by omega)]
  · rw [if_neg h1, if_pos (by omega)]

/-- Witness for C2 on the concrete frame `XC3`. -/
theorem claim_C2_minimum_size_rule_witness :
    List.lookup "c" stC3.imp_cats_ =
      some (if (sparse_cats (colValues XC3 "c") cfgHalf.percentile_thresh).length ≤ 1
        then []
        else sparse_cats (colValues XC3 "c") cfgHalf.percentile_thresh) :=
  claim_C2_minimum_size_rule cfgHalf XC3 stC3 "c" rfl (by decide) (by decide)

/-- C10: with an unrecognized `method`, `fit` succeeds but records an empty
`imp_cats_` dict, so any later `transform` whose selected-column list is
nonempty fails on its first column with a missing-key lookup error. -/
theorem claim_C10_unknown_method (cfg : GrouperConfig) (X : DataFrame) (st : FitState)
    (hm : cfg.method ≠ "freq") (h : fit cfg X = .ok st) :
    st.imp_cats_ = [] ∧
    ∀ c0 cs, st.cat_cols_ = c0 :: cs →
      ∀ (nc : String) (Xt : DataFrame),
        transform (some st) nc Xt = .error ("KeyError: " ++ c0) := by
  obtain ⟨-, himp⟩ := fit_ok h
  have hempty : st.imp_cats_ = [] := by rw [himp, if_neg hm]
  refine ⟨hempty, ?_⟩
  intro c0 cs hcat nc Xt
  show transformFitted st nc Xt = _
  unfold transformFitted
  rw [hcat, List.foldlM_cons]
  have hstep : transformStep st nc Xt c0 = .error ("KeyError: " ++ c0) := by
    unfold transformStep
    cases hg : Xt.getCol c0 with
    | none => rfl
    | some c =>
      rw [hempty]
      rfl
  rw [hstep]
  rfl

/-- Witness for C10: the `method='foo'` fit on `XC3` and the failing
transform. -/
theorem claim_C10_unknown_method_witness :
    transform (some stFoo) "Other" XC3 = .error ("KeyError: " ++ "c") :=
  (claim_C10_unknown_method cfgFoo XC3 stFoo (by decide) (by decide)).2
    "c" [] rfl "Other" XC3

/-- C9: the sparse set recorded by `fit` never shrinks when
`percentile_thresh` grows: with the same data, method `'freq'` and
selection arguments, thresholds `t1 ≤ t2` in `[0, 1)` give sparse sets with
`|sparse(t1)| ≤ |sparse(t2)|` for every selected column. -/
theorem claim_C9_threshold_monotone (X : DataFrame) (t1 t2 : ℚ) (nc : String)
    (inc exc : ColsArg) (st1 st2 : FitState) (col : String)
    (h0 : 0 ≤ t1) (h12 : t1 ≤ t2) (h2 : t2 < 1) (hrows : 0 < X.nrows)
    (hf1 : fit ⟨"freq", t1, nc, inc, exc⟩ X = .ok st1)
    (hf2 : fit ⟨"freq", t2, nc, inc, exc⟩ X = .ok st2)
    (hcol : col ∈ st1.cat_cols_) :
    ((List.lookup col st1.imp_cats_).getD []).length ≤
    ((List.lookup col st2.imp_cats_).getD []).length := by
  obtain ⟨hsel1, himp1⟩ := fit_ok hf1
  obtain ⟨hsel2, himp2⟩ := fit_ok hf2
  have hsame : st2.cat_cols_ = st1.cat_cols_ :=
    (Except.ok.inj (hsel1.symm.trans hsel2)).symm
  have hm1 : (⟨"freq", t1, nc, inc, exc⟩ : GrouperConfig).method = "freq" := rfl
  have hm2 : (⟨"freq", t2, nc, inc, exc⟩ : GrouperConfig).method = "freq" := rfl
  rw [himp1, himp2, if_pos hm1, if_pos hm2]
  rw [lookup_map_self _ _ hcol, lookup_map_self _ _ (hsame ▸ hcol)]
  simp only [Option.getD_some]
  exact imp_cats_col_length_mono _ h12

/-- Witness for C9 on the `color` dataset with thresholds 0.05 and 0.3. -/
theorem claim_C9_threshold_monotone_witness :
    ((List.lookup "color" stC1.imp_cats_).getD []).length ≤
    ((List.lookup "color" stW9.imp_cats_).getD []).length :=
  claim_C9_threshold_monotone XC1 (mkRat 5 100) (mkRat 3 10) "Other"
    .noneArg .noneArg stC1 stW9 "color"
    (by decide) (by decide) (by decide) (by decide)
    (by decide) (by decide) (by decide)

/-- After a successful fitted transform over a duplicate-free frame, the
output column named like `c` is exactly the pure rewrite of `c`. -/
theorem transform_ok_getCol (st : FitState) (nc : String) (X Y : DataFrame) (c : Col)
    (hn : X.names.Nodup) (hL : st.cat_cols_.Nodup)
    (h : transformFitted st nc X = .ok Y) (hc : c ∈ X.cols) :
    Y.getCol c.name = some (frameMapFun st nc st.cat_cols_ c) := by
  unfold transformFitted at h
  have hchar := foldlM_transformStep_ok_cols st.cat_cols_ X Y hn hL h
  have hY : Y = ⟨X.cols.map (frameMapFun st nc st.cat_cols_)⟩ := by
    cases Y with
    | mk cy => exact congrArg DataFrame.mk hchar
  rw [hY, getCol_map_name_preserving X _ (fun d => frameMapFun_name ..) c.name,
    getCol_of_mem_nodup hn hc]
  rfl

/-- C3 counterexample: for the fitted closed-domain frame `XC3`, one
transform succeeds but a second transform of its output fails with the
sentinel-collision error (`Other` is now a category), so
`transform (transform X)` is not `transform X`. -/
theorem claim_C3_counterexample :
    fit cfgHalf XC3 = .ok stC3 ∧
    transform (some stC3) "Other" XC3 = .ok YC3 ∧
    transform (some stC3) "Other" YC3 = .error collisionMsg := by
  decide

/-- C3 amended: `transform` is idempotent on every accepted frame none of
whose columns is closed-domain (`category` dtype); for a closed-domain
column the second application instead fails with the sentinel-collision
error, as the counterexample shows.  (Duplicate-free column names, as in
any real pandas frame.) -/
theorem claim_C3_idempotence_amended (st : FitState) (nc : String) (X Y : DataFrame)
    (hn : X.names.Nodup) (hL : st.cat_cols_.Nodup)
    (hd : ∀ c ∈ X.cols, c.dtype = Dtype.other)
    (h : transform (some st) nc X = .ok Y) :
    transform (some st) nc Y = .ok Y := by
  have h' : transformFitted st nc X = .ok Y := h
  unfold transformFitted at h'
  have hchar := foldlM_transformStep_ok_cols st.cat_cols_ X Y hn hL h'
  have hcond := foldlM_transformStep_ok_conditions st.cat_cols_ X Y h'
  have hYnames : Y.names = X.names := by
    unfold DataFrame.names
    rw [hchar, List.map_map]
    apply List.map_congr_left
    intro c _
    exact frameMapFun_name ..
  have hYd : ∀ c ∈ Y.cols, c.dtype = Dtype.other := by
    intro c hc
    rw [hchar] at hc
    obtain ⟨d, hdm, rfl⟩ := List.mem_map.mp hc
    unfold frameMapFun
    split
    · exact transformColPure_dtype_other (hd d hdm)
    · exact hd d hdm
  have hcondY : ∀ col ∈ st.cat_cols_,
      (Y.getCol col).isSome ∧ (List.lookup col st.imp_cats_).isSome := by
    intro col hc
    obtain ⟨h1, h2⟩ := hcond col hc
    refine ⟨?_, h2⟩
    rw [getCol_isSome_iff, hYnames, ← getCol_isSome_iff]
    exact h1
  obtain ⟨Y2, hY2⟩ := foldlM_transformStep_other_ok st.cat_cols_ Y hYd hcondY
  have hYn : Y.names.Nodup := by
    rw [hYnames]
    exact hn
  have hchar2 := foldlM_transformStep_ok_cols st.cat_cols_ Y Y2 hYn hL hY2
  have hcols : Y2.cols = Y.cols := by
    rw [hchar2, hchar, List.map_map]
    apply List.map_congr_left
    intro c hc
    show frameMapFun st nc st.cat_cols_ (frameMapFun st nc st.cat_cols_ c) =
      frameMapFun st nc st.cat_cols_ c
    exact frameMapFun_idem_other (hd c hc)
  have hY2Y : Y2 = Y := by
    cases Y2 with
    | mk c2 =>
      cases Y with
      | mk cy => exact congrArg DataFrame.mk hcols
  show transformFitted st nc Y = .ok Y
  unfold transformFitted
  rw [hY2, hY2Y]

/-- Witness for the amended C3: on the open-dtype frame `XW3` (selected via
`include_cols`), transforming the transformed output returns it unchanged. -/
theorem claim_C3_idempotence_amended_witness :
    transform (some stC3) "Other" YW3 = .ok YW3 :=
  claim_C3_idempotence_amended stC3 "Other" XW3 YW3 (by decide) (by decide)
    (by decide) (by decide)

/-- C4 counterexample: `XC4` has the singleton sparse candidate `{a}`, so
its recorded sparse set is empty, yet `transform` still extends the closed
domain by the sentinel: the output column differs from the input column. -/
theorem claim_C4_counterexample :
    fit cfgHalf XC4 = .ok stC4 ∧
    List.lookup "c" stC4.imp_cats_ = some [] ∧
    transform (some stC4) "Other" XC4 = .ok YC4 ∧
    XC4.getCol "c" = some ⟨"c", .category ["x", "a"], ["x", "x", "a"]⟩ ∧
    YC4.getCol "c" = some ⟨"c", .category ["x", "a", "Other"], ["x", "x", "a"]⟩ ∧
    YC4 ≠ XC4 := by
  decide

/-- C4 amended: when a selected column's recorded sparse set is empty, its
cell values are unchanged; an open-dtype column is completely unchanged,
but a closed-domain column's domain still gains `new_cat` (the behaviour
the counterexample exhibits). -/
theorem claim_C4_no_sparse_amended (st : FitState) (nc : String) (X Y : DataFrame)
    (c : Col)
    (hn : X.names.Nodup) (hL : st.cat_cols_.Nodup)
    (h : transform (some st) nc X = .ok Y)
    (hc : c ∈ X.cols) (hsel : c.name ∈ st.cat_cols_)
    (himp : List.lookup c.name st.imp_cats_ = some []) :
    (c.dtype = Dtype.other → Y.getCol c.name = some c) ∧
    (∀ cats, c.dtype = Dtype.category cats →
      Y.getCol c.name = some ⟨c.name, Dtype.category (cats ++ [nc]), c.values⟩) := by
  have hYget := transform_ok_getCol st nc X Y c hn hL h hc
  have hconts : st.cat_cols_.contains c.name = true := by
    simpa using hsel
  rw [hYget]
  unfold frameMapFun
  rw [if_pos hconts, himp]
  constructor
  · intro hdt
    cases c with
    | mk n d v =>
      cases d with
      | category cats => simp at hdt
      | other =>
        simp only [transformColPure, Option.getD_some, Option.some.injEq]
        have : ∀ x, applySentinel [] nc x = x := by
          intro x
          simp [applySentinel]
        rw [List.map_congr_left (fun a _ => this a), List.map_id']
  · intro cats hdt
    cases c with
    | mk n d v =>
      cases d with
      | other => simp at hdt
      | category cats0 =>
        have hcats : cats0 = cats := by
          injection hdt
        subst hcats
        simp only [transformColPure, Option.getD_some, Option.some.injEq]
        refine Col.mk.injEq .. ▸ ?_
        constructor
        · rfl
        constructor
        · have : ∀ v ∈ cats0 ++ [nc], (fun x => !(([] : List String).contains x)) v = true := by
            intro v _
            rfl
          rw [List.filter_eq_self.mpr this]
        · have : ∀ x, applySentinel [] nc x = x := by
            intro x
            simp [applySentinel]
          rw [List.map_congr_left (fun a _ => this a), List.map_id']

/-- Witness for the amended C4: the closed-domain case on `XC4`. -/
theorem claim_C4_no_sparse_amended_witness :
    YC4.getCol "c" = some ⟨"c", Dtype.category (["x", "a"] ++ ["Other"]), ["x", "x", "a"]⟩ :=
  (claim_C4_no_sparse_amended stC4 "Other" XC4 YC4
    ⟨"c", .category ["x", "a"], ["x", "x", "a"]⟩
    (by decide) (by decide) (by decide) (by decide) (by decide) (by decide)).2
    ["x", "a"] rfl

/-- C6 counterexample: fitting `XC6f` (where the sentinel name `Other` is
itself a sparse value) and transforming `XC6b` succeeds, yet the sentinel
is **not** a member of the output column's domain — it was removed together
with the other sparse values. -/
theorem claim_C6_counterexample :
    fit defaultConfig XC6f = .ok stC6 ∧
    List.lookup "c" stC6.imp_cats_ = some ["a", "Other"] ∧
    XC6b.getCol "c" = some ⟨"c", .category ["x", "a"], ["x", "x"]⟩ ∧
    transform (some stC6) "Other" XC6b = .ok YC6 ∧
    YC6.getCol "c" = some ⟨"c", .category ["x"], ["x", "x"]⟩ ∧
    ¬ ("Other" ∈ (["x"] : List String)) := by
  decide

/-- C6 amended: for a selected closed-domain column, provided `new_cat` is
not itself in the recorded sparse set, a successful transform removes every
sparse value from the domain and makes `new_cat` a domain member (the
proviso is forced by the counterexample). -/
theorem claim_C6_domain_shrink_amended (st : FitState) (nc : String) (X Y : DataFrame)
    (c : Col) (cats imp : List String)
    (hn : X.names.Nodup) (hL : st.cat_cols_.Nodup)
    (h : transform (some st) nc X = .ok Y)
    (hc : c ∈ X.cols) (hsel : c.name ∈ st.cat_cols_)
    (himp : List.lookup c.name st.imp_cats_ = some imp)
    (hdt : c.dtype = Dtype.category cats)
    (hnc : nc ∉ imp) :
    ∃ doms, Y.getCol c.name =
        some ⟨c.name, Dtype.category doms, c.values.map (applySentinel imp nc)⟩ ∧
      (∀ v ∈ imp, v ∉ doms) ∧ nc ∈ doms := by
  have hYget := transform_ok_getCol st nc X Y c hn hL h hc
  have hconts : st.cat_cols_.contains c.name = true := by
    simpa using hsel
  refine ⟨(cats ++ [nc]).filter (fun v => !imp.contains v), ?_, ?_, ?_⟩
  · rw [hYget]
    unfold frameMapFun
    rw [if_pos hconts, himp]
    cases c with
    | mk n d v =>
      cases d with
      | other => simp at hdt
      | category cats0 =>
        have hcats : cats0 = cats := by
          injection hdt
        subst hcats
        rfl
  · intro v hv hvf
    have hmem := List.mem_filter.mp hvf
    have : ¬ (v ∈ imp) := by
      simpa using hmem.2
    exact this hv
  · apply List.mem_filter.mpr
    refine ⟨List.mem_append_right _ (List.mem_singleton_self nc), ?_⟩
    simpa using hnc

/-- Witness for the amended C6 on `XC3`: the sparse values `a`, `b` leave
the domain and `Other` joins it. -/
theorem claim_C6_domain_shrink_amended_witness :
    ∃ doms, YC3.getCol "c" =
        some ⟨"c", Dtype.category doms,
          (["x", "x", "a", "b"] : List String).map (applySentinel ["a", "b"] "Other")⟩ ∧
      (∀ v ∈ (["a", "b"] : List String), v ∉ doms) ∧ "Other" ∈ doms :=
  claim_C6_domain_shrink_amended stC3 "Other" XC3 YC3
    ⟨"c", .category ["x", "a", "b"], ["x", "x", "a", "b"]⟩ ["x", "a", "b"] ["a", "b"]
    (by decide) (by decide) (by decide) (by decide) (by decide) (by decide)
    rfl (by decide)

/-- A closed-domain column whose domain already holds `new_cat` makes the
per-column rewrite fail with the collision error, whatever the sparse set. -/
theorem transformCol_collision {nc : String} {c : Col} {cats : List String}
    (imp : List String) (hdt : c.dtype = Dtype.category cats) (hnc : nc ∈ cats) :
    transformCol imp nc c = .error collisionMsg := by
  cases c with
  | mk n d v =>
    cases d with
    | other => simp at hdt
    | category cats0 =>
      have hcats : cats0 = cats := by
        injection hdt
      subst hcats
      simp only [transformCol]
      rw [if_pos (by simpa using hnc)]
      rfl

/-- A failing per-column rewrite makes the whole step fail with the same
error. -/
theorem transformStep_error {st : FitState} {nc : String} {X : DataFrame}
    {col : String} {c : Col} {imp : List String} {e : String}
    (hg : X.getCol col = some c) (hl : List.lookup col st.imp_cats_ = some imp)
    (ht : transformCol imp nc c = .error e) :
    transformStep st nc X col = .error e := by
  unfold transformStep
  rw [hg, hl]
  show (do
    let cc ← transformCol imp nc c
    pure (X.setCol col cc)) = Except.error e
  rw [ht]
  rfl

/-- When a selected column's domain holds the sentinel, the fold can never
succeed: at the first visit of that column the step fails. -/
theorem fold_collision_never_ok {st : FitState} {nc : String} {c : Col}
    {cats : List String}
    (hdt : c.dtype = Dtype.category cats) (hnc : nc ∈ cats) :
    ∀ (L : List String) (X : DataFrame), c.name ∈ L → X.getCol c.name = some c →
    ∀ Y, List.foldlM (transformStep st nc) X L ≠ .ok Y := by
  intro L
  induction L with
  | nil =>
    intro X hmem
    cases hmem
  | cons col0 L' ih =>
    intro X hmem hg Y hok
    rw [List.foldlM_cons] at hok
    cases hstep : transformStep st nc X col0 with
    | error e =>
      rw [hstep] at hok
      exact Except.noConfusion
        (show (Except.error e : Except String DataFrame) = Except.ok Y from hok)
    | ok X1 =>
      rw [hstep] at hok
      obtain ⟨c0, imp, hg0, hl0, htok, hX1⟩ := transformStep_ok hstep
      by_cases hcol : col0 = c.name
      · subst hcol
        have hc0 : c0 = c := Option.some.inj (hg0.symm.trans hg)
        rw [hc0, transformCol_collision imp hdt hnc] at htok
        exact Except.noConfusion htok
      · have hg1 : X1.getCol c.name = some c := by
          rw [hX1, getCol_setCol_ne X _ (fun he => hcol he.symm)
            ((transformColPure_name imp nc c0).trans (getCol_name hg0))]
          exact hg
        have hmem' : c.name ∈ L' := by
          cases List.mem_cons.mp hmem with
          | inl he => exact absurd he.symm hcol
          | inr he => exact he
        exact ih X1 hmem' hg1 Y hok

/-- When every selected column before the colliding one either rewrites
successfully or itself hits the collision error, the fold fails with the
collision error. -/
theorem fold_collision_error {st : FitState} {nc : String} {c : Col}
    {cats : List String}
    (hdt : c.dtype = Dtype.category cats) (hnc : nc ∈ cats) :
    ∀ (L1 : List String) (X : DataFrame) (L2 : List String),
    L1.Nodup → c.name ∉ L1 →
    X.getCol c.name = some c →
    (List.lookup c.name st.imp_cats_).isSome →
    (∀ col ∈ L1, ∃ c' imp', X.getCol col = some c' ∧
        List.lookup col st.imp_cats_ = some imp' ∧
        (transformCol imp' nc c' = .error collisionMsg ∨
          ∃ d, transformCol imp' nc c' = .ok d)) →
    List.foldlM (transformStep st nc) X (L1 ++ c.name :: L2) = .error collisionMsg := by
  intro L1
  induction L1 with
  | nil =>
    intro X L2 _ _ hg himp _
    obtain ⟨imp, himp'⟩ := Option.isSome_iff_exists.mp himp
    have hstep := transformStep_error hg himp' (transformCol_collision imp hdt hnc)
    rw [List.nil_append, List.foldlM_cons, hstep]
    rfl
  | cons col0 L1' ih =>
    intro X L2 hnod hnotin hg himp hpre
    obtain ⟨c', imp', hg0, hl0, hcase⟩ := hpre col0 (List.mem_cons_self col0 L1')
    rw [List.cons_append, List.foldlM_cons]
    cases hcase with
    | inl herr =>
      rw [transformStep_error hg0 hl0 herr]
      rfl
    | inr hok =>
      obtain ⟨d, hd⟩ := hok
      rw [transformStep_eq_ok hg0 hl0 hd]
      show List.foldlM (transformStep st nc) (X.setCol col0 d) (L1' ++ c.name :: L2) = _
      have hdname : d.name = col0 := by
        rw [transformCol_ok_eq hd, transformColPure_name]
        exact getCol_name hg0
      have hne : c.name ≠ col0 := fun he => hnotin (he ▸ List.mem_cons_self col0 L1')
      apply ih
      · exact (List.nodup_cons.mp hnod).2
      · exact fun hm => hnotin (List.mem_cons_of_mem _ hm)
      · rw [getCol_setCol_ne X d hne hdname]
        exact hg
      · exact himp
      · intro col hcol
        obtain ⟨c2, imp2, hg2, hl2, hcase2⟩ := hpre col (List.mem_cons_of_mem _ hcol)
        have hcolne : col ≠ col0 := fun he => (List.nodup_cons.mp hnod).1 (he ▸ hcol)
        exact ⟨c2, imp2, by rw [getCol_setCol_ne X d hcolne hdname]; exact hg2, hl2, hcase2⟩

/-- C7 counterexample: `stC7` was fitted on the two-column frame `XC7f`;
the transform input `XC7b` holds the selected closed-domain column `b`
whose domain already holds the sentinel `Other`, yet `transform` fails with
a missing-column `KeyError` for `a`, not with the value-conflict error. -/
theorem claim_C7_counterexample :
    fit cfgHalf XC7f = .ok stC7 ∧
    stC7.cat_cols_ = ["a", "b"] ∧
    ("b" ∈ stC7.cat_cols_) ∧
    XC7b.getCol "b" = some ⟨"b", .category ["x", "Other"], ["x"]⟩ ∧
    ("Other" ∈ (["x", "Other"] : List String)) ∧
    transform (some stC7) "Other" XC7b = .error ("KeyError: " ++ "a") ∧
    "KeyError: " ++ "a" ≠ collisionMsg := by
  decide

/-- C7 amended: when a selected closed-domain column's domain already holds
`new_cat`, `transform` never returns a dataset; and it fails with exactly
the value-conflict message provided every selected column visited earlier
exists in the frame, has a recorded sparse set, and does not fail with a
different error (the counterexample shows the proviso is needed: a missing
earlier column yields a `KeyError` instead). -/
theorem claim_C7_sentinel_collision (st : FitState) (nc : String) (X : DataFrame)
    (c : Col) (cats : List String)
    (hsel : c.name ∈ st.cat_cols_)
    (hg : X.getCol c.name = some c)
    (hdt : c.dtype = Dtype.category cats)
    (hnc : nc ∈ cats) :
    (∀ Y, transform (some st) nc X ≠ .ok Y) ∧
    (∀ L1 L2, st.cat_cols_ = L1 ++ c.name :: L2 → L1.Nodup → c.name ∉ L1 →
      (List.lookup c.name st.imp_cats_).isSome →
      (∀ col ∈ L1, ∃ c' imp', X.getCol col = some c' ∧
          List.lookup col st.imp_cats_ = some imp' ∧
          (transformCol imp' nc c' = .error collisionMsg ∨
            ∃ d, transformCol imp' nc c' = .ok d)) →
      transform (some st) nc X = .error collisionMsg) := by
  constructor
  · intro Y
    show transformFitted st nc X ≠ _
    unfold transformFitted
    exact fold_collision_never_ok hdt hnc st.cat_cols_ X hsel hg Y
  · intro L1 L2 hsplit h1 h2 h3 h4
    show transformFitted st nc X = _
    unfold transformFitted
    rw [hsplit]
    exact fold_collision_error hdt hnc L1 X L2 h1 h2 hg h3 h4

/-- Witness for the amended C7: the single-column fitted frame `XW7`, whose
domain holds `Other`, makes transform fail with the collision message. -/
theorem claim_C7_sentinel_collision_witness :
    transform (some stW7) "Other" XW7 = .error collisionMsg :=
  (claim_C7_sentinel_collision stW7 "Other" XW7
    ⟨"b", .category ["x", "Other"], ["x", "x", "x", "Other"]⟩ ["x", "Other"]
    (by decide) (by decide) rfl (by decide)).2 [] []
    rfl (by decide) (by decide) (by decide)
    (fun col hcol => absurd hcol (List.not_mem_nil col))

/-- Under duplicate-free names, taking the names of the filtered columns is
the same as filtering the names by a per-name predicate. -/
theorem map_filter_names (p : Col → Bool) :
    ∀ (l : List Col), (l.map (·.name)).Nodup →
    (l.filter p).map (·.name) =
    (l.map (·.name)).filter (fun n => l.any (fun c => c.name = n && p c)) := by
  intro l
  induction l with
  | nil => intro _; rfl
  | cons d rest ih =>
    intro hnod
    rw [List.map_cons] at hnod
    obtain ⟨hd1, hd2⟩ := List.nodup_cons.mp hnod
    have hrest : rest.any (fun c => decide (c.name = d.name) && p c) = false := by
      rw [List.any_eq_false]
      intro c hc
      have hne : ¬ (c.name = d.name) := fun he =>
        hd1 (he ▸ List.mem_map_of_mem (·.name) hc)
      simp [hne]
    have htail : (rest.map (·.name)).filter
          (fun n => (d :: rest).any (fun c => decide (c.name = n) && p c)) =
        (rest.map (·.name)).filter
          (fun n => rest.any (fun c => decide (c.name = n) && p c)) := by
      apply List.filter_congr
      intro n hn
      have hne : ¬ (d.name = n) := fun he => hd1 (he ▸ hn)
      simp [List.any_cons, hne]
    rw [List.map_cons, List.filter_cons, List.filter_cons]
    by_cases hp : p d
    · rw [if_pos hp, if_pos (by simp [List.any_cons, hrest, hp]), List.map_cons]
      congr 1
      rw [htail]
      exact ih hd2
    · have hp' : p d = false := by
        simpa using hp
      rw [if_neg (by simp [hp']), if_neg (by simp [List.any_cons, hrest, hp']), htail]
      exact ih hd2

/-- Name membership in the category-column name list is the per-name
categorical predicate (no duplicate-freeness needed). -/
theorem contains_cat_names (p : Col → Bool) (n : String) :
    ∀ (l : List Col),
    ((l.filter p).map (·.name)).contains n = l.any (fun c => c.name = n && p c) := by
  intro l
  induction l with
  | nil => rfl
  | cons d rest ih =>
    rw [List.filter_cons, List.any_cons]
    by_cases hp : p d
    · rw [if_pos hp, List.map_cons, List.contains_cons, ih]
      by_cases he : d.name = n
      · simp [he, hp]
      · have hne : ¬ (n = d.name) := fun h2 => he h2.symm
        simp [he, hne, hp]
    · have hp' : p d = false := by
        simpa using hp
      rw [if_neg (by simp [hp']), ih, hp']
      simp

/-- C8: the selected column list equals the claim's description — the
dataset's columns in natural order, restricted to those declared
categorical or named in `include_cols` (when provided), minus those named
in `exclude_cols` (when provided) — and a non-list `include_cols` or
`exclude_cols` makes `fit` fail.  (Duplicate-free column names, as the
spec's data model requires.) -/
theorem claim_C8_selection_contract (X : DataFrame) (inc exc : ColsArg)
    (hn : X.names.Nodup) :
    cat_cols_selection X inc exc = selectionSpec X inc exc ∧
    (∀ (m : String) (t : ℚ) (nc : String),
      (inc = ColsArg.nonListArg ∨ exc = ColsArg.nonListArg) → 0 < X.nrows →
      ∃ e, fit ⟨m, t, nc, inc, exc⟩ X = .error e) := by
  have hbase : (X.cols.filter (fun c => c.dtype.isCategory)).map (·.name) =
      X.names.filter (fun n => X.cols.any (fun c => c.name = n && c.dtype.isCategory)) :=
    map_filter_names _ X.cols hn
  have hc : ∀ n, ((X.cols.filter (fun c => c.dtype.isCategory)).map (·.name)).contains n =
      X.cols.any (fun c => c.name = n && c.dtype.isCategory) :=
    fun n => contains_cat_names _ n X.cols
  constructor
  · cases inc with
    | nonListArg => cases exc <;> rfl
    | noneArg =>
      cases exc with
      | nonListArg => rfl
      | noneArg =>
        show Except.ok _ = Except.ok _
        congr 1
        rw [hbase]
        simp
      | listArg le =>
        show Except.ok _ = Except.ok _
        congr 1
        rw [hbase]
        simp
    | listArg li =>
      cases exc with
      | nonListArg => rfl
      | noneArg =>
        show Except.ok _ = Except.ok _
        congr 1
        simp only [hc]
        simp
      | listArg le =>
        show Except.ok _ = Except.ok _
        congr 1
        simp only [hc]
  · intro m t nc hor hrow
    have hsel : ∃ e, cat_cols_selection X inc exc = .error e := by
      cases hor with
      | inl h1 =>
        subst h1
        exact ⟨_, rfl⟩
      | inr h2 =>
        subst h2
        cases inc with
        | noneArg => exact ⟨_, rfl⟩
        | listArg l => exact ⟨_, rfl⟩
        | nonListArg => exact ⟨_, rfl⟩
    obtain ⟨e, he⟩ := hsel
    refine ⟨e, ?_⟩
    unfold fit
    rw [if_neg (by omega)]
    rw [he]
    rfl

/-- Witness for C8: `include_cols` pulls in the open-dtype column `n`,
`exclude_cols` drops the categorical column `y`; a non-list argument makes
`fit` fail. -/
theorem claim_C8_selection_contract_witness :
    cat_cols_selection XW8 (ColsArg.listArg ["n"]) (ColsArg.listArg ["y"]) =
      selectionSpec XW8 (ColsArg.listArg ["n"]) (ColsArg.listArg ["y"]) ∧
    (∃ e, fit ⟨"freq", mkRat 5 100, "Other", ColsArg.nonListArg, ColsArg.noneArg⟩ XW8 =
      .error e) :=
  ⟨(claim_C8_selection_contract XW8 (.listArg ["n"]) (.listArg ["y"]) (by decide)).1,
   (claim_C8_selection_contract XW8 .nonListArg .noneArg (by decide)).2
     "freq" (mkRat 5 100) "Other" (Or.inl rfl) (by decide)⟩
